import Mathlib

/-!
Verification development for the SDC behavioral-cloning repository.

The repository has two Python source files:

* `drive.py` — an inference server: it loads a serialized Keras model
  (architecture from a `.json` file, weights from a `.h5` file), listens for
  `telemetry` events, preprocesses the incoming camera image, runs the model
  and emits a `steer` message with a scaled steering angle and a constant
  throttle.
* `model.py` — the training pipeline: it merges several `.npz` recordings,
  rescales the images, shuffles the merged arrays with a fixed seed, splits
  them into training/validation parts, derives per-sample regression weights
  and dumps hyper-parameters to a JSON file.

This file is a shallow embedding of those parts of the code.  Numpy arrays
are embedded as nested lists over `ℚ` (`ℝ` is used only where the code
multiplies by `π`).  The numpy random generator is abstracted as a function
`gp : ℕ → ℕ → List ℕ` mapping a seed state and an array length to the list of
source indices of the generated permutation; `np.random.shuffle` on an array
of length `n` rearranges it according to `gp state n`.
-/

/-- Images are rank-3 arrays: rows of columns of channel values. -/
abbrev QImg := List (List (List ℚ))

/- ===================================================================
   drive.py
   =================================================================== -/

/-- `drive.py` / `image_preprocessing`: divide the pixel values by 255 and
then cut the top 55 rows (`img = img.astype(np.float32) / 255.` followed by
`img = img[55:, :, :]`). -/
def image_preprocessing (img : QImg) : QImg :=
  let img1 := img.map (fun row => row.map (fun pix => pix.map (fun v => v / 255)))
  let img2 := img1.drop 55
  img2

/-- `drive.py` / `telemetry`: `angle_factor = 180. / 25. / np.pi * 1.5`. -/
noncomputable def angle_factor : ℝ := 180 / 25 / Real.pi * 1.5

/-- The fields of a `telemetry` event read by the handler. -/
structure TelemetryData where
  steering_angle : String
  throttle : String
  speed : String
  image : String

/-- The payload of the emitted `steer` message. -/
structure SteerMsg where
  steering_angle : ℝ
  throttle : ℝ

/-- `drive.py` / `send_control`: emit the `steer` message with the given
steering angle and throttle. -/
def send_control (steering_angle throttle : ℝ) : SteerMsg :=
  { steering_angle := steering_angle, throttle := throttle }

/-- `drive.py` / `telemetry`: decode the camera image from the event payload,
preprocess it, predict the steering angle, scale it by `angle_factor` and
send the control message with constant throttle `0.5`.  The base64/PIL image
decoding is abstracted as `decode`; the Keras model as `predict`. -/
noncomputable def telemetry (decode : String → QImg) (predict : QImg → ℝ)
    (data : TelemetryData) : SteerMsg :=
  let imgString := data.image
  let image_array := image_preprocessing (decode imgString)
  let steering_angle := predict image_array * angle_factor
  let throttle : ℝ := 0.5
  send_control steering_angle throttle

/-- Python `str.split(sep)` on lists of characters: `pySplit sep s` is the
list of chunks of `s` delimited by `sep`; it is always non-empty. -/
def pySplit (sep : Char) : List Char → List (List Char)
  | [] => [[]]
  | c :: rest =>
      if c = sep then [] :: pySplit sep rest
      else
        match pySplit sep rest with
        | [] => [[c]]
        | h :: hs => (c :: h) :: hs

/-- Fueled worker for Python `str.replace(pat, rep)`: at each position, if
`pat` starts there, emit `rep` and skip over `pat`, otherwise copy one
character.  The fuel argument only makes the recursion structural; it is
instantiated with the length of the string, which the recursion never
exceeds. -/
def pyReplaceF (pat rep : List Char) : ℕ → List Char → List Char
  | _, [] => []
  | 0, s => s
  | fuel + 1, c :: rest =>
      if pat.isPrefixOf (c :: rest) ∧ pat ≠ [] then
        rep ++ pyReplaceF pat rep fuel (rest.drop (pat.length - 1))
      else
        c :: pyReplaceF pat rep fuel rest

/-- Python `s.replace(pat, rep)`: replace every non-overlapping occurrence of
`pat` in `s`, scanning left to right. -/
def pyReplace (pat rep s : List Char) : List Char :=
  pyReplaceF pat rep s.length s

/-- `drive.py` / `__main__`: `root = path.split('.')[0]`. -/
def modelRoot (path : List Char) : List Char :=
  (pySplit '.' path).headD []

/-- `drive.py` / `__main__`: `jpath = root + '.json'`, the file the model
architecture is loaded from. -/
def jpath (path : List Char) : List Char :=
  modelRoot path ++ ".json".toList

/-- `drive.py` / `__main__`: `wpath = args.model.replace('json', 'h5')`, the
file the model weights are loaded from. -/
def wpath (path : List Char) : List Char :=
  pyReplace "json".toList "h5".toList path

/- ===================================================================
   model.py : module-level constants
   =================================================================== -/

def BATCH_SIZE : ℕ := 4
def LEARNING_RATE : ℚ := 0.0001
def DECAY : ℚ := 1e-6
def BN_EPSILON : ℚ := 1e-6
def NB_EPOCHS : ℚ := 100
def ANGLE_KEY : String := "angle_med10"
def ANGLE_WEIGHT : ℚ := 10
def L2_WEIGHT : ℚ := 0.00001
def SEED : ℕ := 4242

def BRIGHTNESS_DELTA : ℚ := 80 / 255
def CONTRAST_LOWER : ℚ := 0.3
def CONTRAST_UPPER : ℚ := 1.7
def SATURATION_LOWER : ℚ := 0.3
def SATURATION_UPPER : ℚ := 1.7
def HUE_DELTA : ℚ := 0.2

/-- `model.py` assigns `IMG_ROWS, IMG_COLS = 160, 320` and immediately
re-assigns `IMG_ROWS, IMG_COLS = 105, 320`; the final values are embedded. -/
def IMG_ROWS : ℕ := 105
def IMG_COLS : ℕ := 320
def IMG_CHANNELS : ℕ := 3

/- ===================================================================
   model.py : data loading
   =================================================================== -/

/-- Contents of one `dataset.npz` recording: the `images` member and the
named angle series (`data[angle_key]`). -/
structure NpzFile where
  images : List QImg
  series : String → List ℚ

/-- Apply a permutation given as a list of source indices: entry `i` of the
result is entry `p[i]` of `x`. -/
def applyPerm (p : List ℕ) (x : List α) : List α :=
  p.filterMap (fun i => x[i]?)

/-- `model.py` / `np_shuffle_pair`: shuffle `x`, restore the generator state,
and shuffle `y` with that same state.  Since the permutation drawn by
`np.random.shuffle` depends only on the generator state and the array length,
both arrays are rearranged by `gp state length`. -/
def np_shuffle_pair (gp : ℕ → ℕ → List ℕ) (state : ℕ)
    (x : List α) (y : List β) : List α × List β :=
  (applyPerm (gp state x.length) x, applyPerm (gp state y.length) y)

/-- The accumulating loop of `model.py` / `load_npz`: `images`/`angle` start
as `None`; the first file initialises them, every further file is appended
(`images.resize` + assignment for the images, `np.append` for the angles). -/
def mergeLoop (acc : Option (List QImg × List ℚ)) :
    List (NpzFile × String) → Option (List QImg × List ℚ)
  | [] => acc
  | (data, angle_key) :: rest =>
      match acc with
      | none => mergeLoop (some (data.images, data.series angle_key)) rest
      | some (images, angle) =>
          mergeLoop (some (images ++ data.images, angle ++ data.series angle_key)) rest

/-- `model.py` / `load_npz`: `images /= 255.` applied to one image. -/
def scaleImg (im : QImg) : QImg :=
  im.map (fun row => row.map (fun pix => pix.map (fun v => v / 255)))

/-- Python `int(...)` on a rational: truncation toward zero. -/
def pyInt (q : ℚ) : ℤ :=
  if 0 ≤ q then ⌊q⌋ else ⌈q⌉

/-- Python slice `l[:i]` with a possibly negative index. -/
def pySliceTo (l : List α) (i : ℤ) : List α :=
  if 0 ≤ i then l.take i.toNat else l.take ((l.length + i).toNat)

/-- Python slice `l[i:]` with a possibly negative index. -/
def pySliceFrom (l : List α) (i : ℤ) : List α :=
  if 0 ≤ i then l.drop i.toNat else l.drop ((l.length + i).toNat)

/-- `model.py` / `load_npz`: merge the recordings, rescale the images by
`/ 255`, re-seed the generator with `SEED` (discarding the ambient generator
state `st`), shuffle images and angles with `np_shuffle_pair`, and split at
`idx = int(images.shape[0] * split)` when `split < 1.0`.  Returns `none` when
the dataset list is empty (the Python code would fail on `images /= 255.`
with `images` still `None`). -/
def load_npz (gp : ℕ → ℕ → List ℕ) (st : ℕ) (datasets : List (NpzFile × String))
    (split : ℚ) :
    Option (List QImg × List ℚ × Option (List QImg) × Option (List ℚ)) :=
  match mergeLoop none datasets with
  | none => none
  | some (images0, angle0) =>
      let images1 := images0.map scaleImg
      let state := SEED
      let sh := np_shuffle_pair gp state images1 angle0
      if split < 1 then
        let idx : ℤ := pyInt ((sh.1.length : ℚ) * split)
        some (pySliceTo sh.1 idx, pySliceTo sh.2 idx,
              some (pySliceFrom sh.1 idx), some (pySliceFrom sh.2 idx))
      else
        some (sh.1, sh.2, none, none)

/-- What the split claim prescribes, in its own words: the training set is
the first `⌊N * split⌋` samples of the shuffled data and the validation set
is the rest when `split < 1.0`; everything is training data when
`split = 1.0`. -/
def spec_split (shuffledX : List QImg) (shuffledY : List ℚ) (split : ℚ) :
    List QImg × List ℚ × Option (List QImg) × Option (List ℚ) :=
  if split < 1 then
    let k := (⌊(shuffledX.length : ℚ) * split⌋).toNat
    (shuffledX.take k, shuffledY.take k,
     some (shuffledX.drop k), some (shuffledY.drop k))
  else
    (shuffledX, shuffledY, none, none)

/- ===================================================================
   model.py : training weights and hyper-parameter dump
   =================================================================== -/

/-- `model.py` / `train_model`:
`y_weights = np.ones_like(y_train) + ANGLE_WEIGHT * np.abs(y_train)`. -/
def y_weights (y_train : List ℚ) : List ℚ :=
  y_train.map (fun a => 1 + ANGLE_WEIGHT * |a|)

/-- JSON values, as far as the hyper-parameter dump needs them. -/
inductive JVal where
  | num (q : ℚ)
  | str (s : String)
  | arr (elems : List JVal)
  | obj (fields : List (String × JVal))

/-- The inner `PRE-PROCESSING` dictionary of `save_hyperparameters`. -/
def preprocessing_params : List (String × JVal) :=
  [("BRIGHTNESS_DELTA", JVal.num BRIGHTNESS_DELTA),
   ("CONTRAST_LOWER", JVal.num CONTRAST_LOWER),
   ("CONTRAST_UPPER", JVal.num CONTRAST_UPPER),
   ("SATURATION_LOWER", JVal.num SATURATION_LOWER),
   ("SATURATION_UPPER", JVal.num SATURATION_UPPER),
   ("HUE_DELTA", JVal.num HUE_DELTA)]

/-- The `hyperparams` dictionary of `model.py` / `save_hyperparameters`. -/
def hyperparams : List (String × JVal) :=
  [("NB_EPOCHS", JVal.num NB_EPOCHS),
   ("BATCH_SIZE", JVal.num (BATCH_SIZE : ℚ)),
   ("LEARNING_RATE", JVal.num LEARNING_RATE),
   ("DECAY", JVal.num DECAY),
   ("L2_WEIGHT", JVal.num L2_WEIGHT),
   ("BN_EPSILON", JVal.num BN_EPSILON),
   ("ANGLE_KEY", JVal.str ANGLE_KEY),
   ("ANGLE_WEIGHT", JVal.num ANGLE_WEIGHT),
   ("IMAGE_SIZE", JVal.arr [JVal.num (IMG_ROWS : ℚ), JVal.num (IMG_COLS : ℚ)]),
   ("PRE-PROCESSING", JVal.obj preprocessing_params)]

/-- `model.py` / `save_hyperparameters`: the file written and its JSON
content (serialisation details such as indentation and key sorting are not
modelled; the value structure is). -/
def save_hyperparameters (ckpt_path : String) : String × JVal :=
  (ckpt_path ++ "hyperparameters.json", JVal.obj hyperparams)

/- ===================================================================
   Helper lemmas : drive.py model path derivation
   =================================================================== -/

theorem toList_dot_json : ".json".toList = '.' :: "json".toList := rfl

theorem pySplit_append (root t : List Char) (hdot : '.' ∉ root) :
    pySplit '.' (root ++ '.' :: t) = root :: pySplit '.' t := by
  induction root with
  | nil => simp [pySplit]
  | cons c rs ih =>
      have hc : ¬ (c = '.') := fun h => hdot (h ▸ List.mem_cons_self c rs)
      have hdot' : '.' ∉ rs := fun h => hdot (List.mem_cons_of_mem _ h)
      simp [pySplit, hc, ih hdot']

theorem modelRoot_append (root : List Char) (hdot : '.' ∉ root) :
    modelRoot (root ++ ".json".toList) = root := by
  rw [modelRoot, toList_dot_json, pySplit_append root _ hdot]
  rfl

theorem pyReplaceF_append (pat rep : List Char) :
    ∀ (s : List Char) (fuel : ℕ) (t : List Char),
      s.length + t.length ≤ fuel →
      (∀ i, i < s.length → ¬ (pat.isPrefixOf ((s ++ t).drop i))) →
      pyReplaceF pat rep fuel (s ++ t) = s ++ pyReplaceF pat rep (fuel - s.length) t := by
  intro s
  induction s with
  | nil => intro fuel t _ _; simp
  | cons c s' ih =>
      intro fuel t hfuel hocc
      cases fuel with
      | zero => simp at hfuel
      | succ m =>
          have h0 : ¬ (pat.isPrefixOf (c :: (s' ++ t)) ∧ pat ≠ []) := by
            rintro ⟨h1, -⟩
            exact hocc 0 (by simp) (by simpa using h1)
          have harith : s'.length + t.length ≤ m := by
            simpa [Nat.succ_le_succ_iff, Nat.add_right_comm] using hfuel
          have hocc' : ∀ i, i < s'.length → ¬ (pat.isPrefixOf ((s' ++ t).drop i)) := by
            intro i hi
            have := hocc (i + 1) (by simpa using Nat.succ_lt_succ hi)
            simpa [List.drop_succ_cons] using this
          simp only [List.cons_append, pyReplaceF, List.append_eq]
          rw [if_neg h0, ih m t harith hocc']
          simp [Nat.succ_sub_succ]

theorem no_json_occurrence (root : List Char)
    (hinf : ¬ ("json".toList <:+: root)) :
    ∀ i, i < (root ++ ['.']).length →
      ¬ ("json".toList.isPrefixOf ((root ++ '.' :: "json".toList).drop i)) := by
  intro i hi hpre
  rw [ List.isPrefixOf_iff_prefix] at hpre
  have hi' : i ≤ root.length := by simpa [Nat.lt_succ_iff] using hi
  rcases eq_or_lt_of_le hi' with heq | hlt
  · subst heq
    rw [List.drop_left] at hpre
    exact absurd hpre (by decide)
  · -- the occurrence starts inside `root`
    have hdrop : (root ++ '.' :: "json".toList).drop i
        = root.drop i ++ '.' :: "json".toList := by
      rw [List.drop_append_eq_append_drop, Nat.sub_eq_zero_of_le (le_of_lt hlt)]
      rfl
    rw [hdrop] at hpre
    obtain ⟨u, hu⟩ := hpre
    set rd := root.drop i with hrd
    have hrdlen : rd.length = root.length - i := by simp [hrd]
    rcases le_or_lt ("json".toList.length) rd.length with hle | hgt
    · -- occurrence entirely inside `root`: contradicts `hinf`
      have htake : "json".toList = rd.take ("json".toList.length) := by
        have h1 : ("json".toList ++ u).take ("json".toList.length) = "json".toList :=
          List.take_left "json".toList u
        rw [hu, List.take_append_eq_append_take, Nat.sub_eq_zero_of_le hle] at h1
        simp at h1
        exact h1.symm
      have hpr : "json".toList <+: rd := htake ▸ List.take_prefix _ rd
      have hmid : "json".toList <:+: rd := List.IsPrefix.isInfix hpr
      have hout : rd <:+: root := List.IsSuffix.isInfix (List.drop_suffix i root)
      exact hinf (List.IsInfix.trans hmid hout)
    · -- the occurrence would have to cross the '.' separator
      have hget : ("json".toList)[rd.length]? = some '.' := by
        have h1 : (rd ++ '.' :: "json".toList)[rd.length]? = some '.' := by
          rw [List.getElem?_append_right (le_refl rd.length)]
          simp
        rw [← hu] at h1
        rw [List.getElem?_append] at h1
        rwa [if_pos hgt] at h1
      have h4 : rd.length < 4 := hgt.trans_eq (by decide)
      have hnone : ∀ m, m < 4 → ("json".toList)[m]? ≠ some '.' := by decide
      exact hnone rd.length h4 hget

theorem wpath_append (root : List Char) (hinf : ¬ ("json".toList <:+: root)) :
    wpath (root ++ ".json".toList) = root ++ ".h5".toList := by
  rw [wpath, pyReplace, toList_dot_json]
  have hassoc : root ++ '.' :: "json".toList = (root ++ ['.']) ++ "json".toList := by
    simp
  have hfuel : (root ++ ['.']).length + ("json".toList).length
      ≤ (root ++ '.' :: "json".toList).length := by
    simp [hassoc]
  have hocc := no_json_occurrence root hinf
  rw [hassoc] at hocc ⊢
  rw [pyReplaceF_append "json".toList "h5".toList (root ++ ['.'])
      ((root ++ ['.']) ++ "json".toList).length "json".toList (by simpa using hfuel) hocc]
  have hrest : (((root ++ ['.']) ++ "json".toList).length - (root ++ ['.']).length) = 4 := by
    simp
  rw [hrest]
  have hfour : pyReplaceF "json".toList "h5".toList 4 "json".toList = "h5".toList := by decide
  rw [hfour]
  simp

/- ===================================================================
   Helper lemmas : permutations, merging, slicing
   =================================================================== -/

theorem filterMap_getElem?_range (x : List α) :
    (List.range x.length).filterMap (fun i => x[i]?) = x := by
  induction x with
  | nil => rfl
  | cons a xs ih =>
      rw [List.length_cons, List.range_succ_eq_map]
      rw [List.filterMap_cons]
      simp only [List.getElem?_cons_zero, List.filterMap_map]
      have hcomp : ((fun i => (a :: xs)[i]?) ∘ Nat.succ) = (fun i => xs[i]?) := by
        funext i
        simp
      rw [hcomp, ih]

theorem applyPerm_perm {x : List α} {p : List ℕ} (hp : p.Perm (List.range x.length)) :
    (applyPerm p x).Perm x := by
  have h1 := List.Perm.filterMap (fun i => x[i]?) hp
  rw [filterMap_getElem?_range] at h1
  exact h1

theorem applyPerm_getElem? (x : List α) :
    ∀ (p : List ℕ), (∀ k ∈ p, k < x.length) →
      ∀ (i j : ℕ), p[i]? = some j → (applyPerm p x)[i]? = x[j]? := by
  intro p
  induction p with
  | nil => intro _ i j h; simp at h
  | cons q ps ih =>
      intro hval i j h
      have hq : q < x.length := hval q (List.mem_cons_self q ps)
      have hxq : x[q]? = some x[q] := List.getElem?_eq_getElem hq
      have hstep : applyPerm (q :: ps) x = x[q] :: applyPerm ps x := by
        simp [applyPerm, List.filterMap_cons, hxq]
      cases i with
      | zero =>
          rw [List.getElem?_cons_zero] at h
          cases h
          rw [hstep, List.getElem?_cons_zero, hxq]
      | succ i =>
          rw [List.getElem?_cons_succ] at h
          rw [hstep, List.getElem?_cons_succ]
          exact ih (fun k hk => hval k (List.mem_cons_of_mem _ hk)) i j h

theorem applyPerm_zip (p : List ℕ) (x : List α) (y : List β)
    (hlen : x.length = y.length) :
    applyPerm p (x.zip y) = (applyPerm p x).zip (applyPerm p y) := by
  induction p with
  | nil => rfl
  | cons q ps ih =>
      cases hx : x[q]? with
      | some a =>
          have hq : q < x.length := by
            by_contra hc
            rw [List.getElem?_eq_none (le_of_not_lt hc)] at hx
            exact Option.noConfusion hx
          have hqy : q < y.length := hlen ▸ hq
          have hyb : y[q]? = some y[q] := List.getElem?_eq_getElem hqy
          have hzip : (x.zip y)[q]? = some (a, y[q]) :=
            List.getElem?_zip_eq_some.mpr ⟨hx, hyb⟩
          simp only [applyPerm, List.filterMap_cons, hx, hyb, hzip, List.zip_cons_cons]
          exact congrArg _ ih
      | none =>
          have hqx : x.length ≤ q := by
            by_contra hc
            rw [List.getElem?_eq_getElem (lt_of_not_le hc)] at hx
            exact Option.noConfusion hx
          have hyn : y[q]? = none := List.getElem?_eq_none (hlen ▸ hqx)
          have hzn : (x.zip y)[q]? = none := by
            refine List.getElem?_eq_none ?_
            rw [List.length_zip]
            exact le_trans (min_le_left _ _) hqx
          simp only [applyPerm, List.filterMap_cons, hx, hyn, hzn]
          exact ih

theorem pySlice_to_append_from (l : List α) (i : ℤ) :
    pySliceTo l i ++ pySliceFrom l i = l := by
  unfold pySliceTo pySliceFrom
  split <;> exact List.take_append_drop _ l

theorem mergeLoop_some (ds : List (NpzFile × String)) :
    ∀ (a : List QImg) (b : List ℚ),
      mergeLoop (some (a, b)) ds
        = some (a ++ (ds.map (fun dk => dk.1.images)).flatten,
                b ++ (ds.map (fun dk => dk.1.series dk.2)).flatten) := by
  induction ds with
  | nil => intro a b; simp [mergeLoop]
  | cons dk ds ih =>
      intro a b
      obtain ⟨d, k⟩ := dk
      rw [show mergeLoop (some (a, b)) ((d, k) :: ds)
            = mergeLoop (some (a ++ d.images, b ++ d.series k)) ds from rfl]
      rw [ih]
      simp [List.append_assoc]

theorem mergeLoop_none_eq (d : NpzFile) (k : String) (ds : List (NpzFile × String)) :
    mergeLoop none ((d, k) :: ds)
      = some ((((d, k) :: ds).map (fun dk => dk.1.images)).flatten,
              (((d, k) :: ds).map (fun dk => dk.1.series dk.2)).flatten) := by
  rw [show mergeLoop none ((d, k) :: ds)
        = mergeLoop (some (d.images, d.series k)) ds from rfl]
  rw [mergeLoop_some]
  simp

theorem load_npz_lt (gp : ℕ → ℕ → List ℕ) (st : ℕ)
    (datasets : List (NpzFile × String)) (split : ℚ)
    (images0 : List QImg) (angle0 : List ℚ)
    (hm : mergeLoop none datasets = some (images0, angle0)) (hs : split < 1) :
    load_npz gp st datasets split
      = some (pySliceTo (np_shuffle_pair gp SEED (images0.map scaleImg) angle0).1
                (pyInt (((np_shuffle_pair gp SEED (images0.map scaleImg) angle0).1.length : ℚ) * split)),
              pySliceTo (np_shuffle_pair gp SEED (images0.map scaleImg) angle0).2
                (pyInt (((np_shuffle_pair gp SEED (images0.map scaleImg) angle0).1.length : ℚ) * split)),
              some (pySliceFrom (np_shuffle_pair gp SEED (images0.map scaleImg) angle0).1
                (pyInt (((np_shuffle_pair gp SEED (images0.map scaleImg) angle0).1.length : ℚ) * split))),
              some (pySliceFrom (np_shuffle_pair gp SEED (images0.map scaleImg) angle0).2
                (pyInt (((np_shuffle_pair gp SEED (images0.map scaleImg) angle0).1.length : ℚ) * split)))) := by
  simp only [load_npz, hm, if_pos hs]

theorem load_npz_ge (gp : ℕ → ℕ → List ℕ) (st : ℕ)
    (datasets : List (NpzFile × String)) (split : ℚ)
    (images0 : List QImg) (angle0 : List ℚ)
    (hm : mergeLoop none datasets = some (images0, angle0)) (hs : ¬ split < 1) :
    load_npz gp st datasets split
      = some ((np_shuffle_pair gp SEED (images0.map scaleImg) angle0).1,
              (np_shuffle_pair gp SEED (images0.map scaleImg) angle0).2,
              none, none) := by
  simp only [load_npz, hm, if_neg hs]

/- ===================================================================
   Claim theorems
   =================================================================== -/

/-- C1 (counterexample): the path-derivation claim fails as stated.  For the
root string `myjson` the argument is `myjson.json`; the architecture file is
derived correctly, but `replace('json', 'h5')` also rewrites the `json`
inside the root, so the weights are loaded from `myh5.h5`, not
`myjson.h5`. -/
theorem drive_model_paths_counterexample :
    ¬ (jpath ("myjson.json".toList) = "myjson".toList ++ ".json".toList ∧
       wpath ("myjson.json".toList) = "myjson".toList ++ ".h5".toList) := by
  decide

/-- C1 (amended): when `drive.py` is invoked with `<root>.json` where the
root contains no `'.'` and no occurrence of the substring `json`, the model
architecture is loaded from `<root>.json` and the model weights from
`<root>.h5`. -/
theorem drive_model_paths (root : List Char) (hdot : '.' ∉ root)
    (hjson : ¬ ("json".toList <:+: root)) :
    jpath (root ++ ".json".toList) = root ++ ".json".toList ∧
    wpath (root ++ ".json".toList) = root ++ ".h5".toList := by
  constructor
  · rw [jpath, modelRoot_append root hdot]
  · exact wpath_append root hjson

/-- Witness for C1 at the concrete root `model`. -/
theorem drive_model_paths_witness :
    ('.' ∉ "model".toList) ∧ (¬ ("json".toList <:+: "model".toList)) ∧
    (jpath ("model".toList ++ ".json".toList) = "model".toList ++ ".json".toList ∧
     wpath ("model".toList ++ ".json".toList) = "model".toList ++ ".h5".toList) :=
  ⟨by decide, by decide, drive_model_paths "model".toList (by decide) (by decide)⟩

/-- C2: for every telemetry event, the steering angle emitted in the `steer`
message is the model's prediction on the preprocessed camera image times
`180 / 25 / π * 1.5`, and the emitted throttle is the constant `0.5`. -/
theorem telemetry_steer_message (decode : String → QImg) (predict : QImg → ℝ)
    (data : TelemetryData) :
    (telemetry decode predict data).steering_angle
      = predict (image_preprocessing (decode data.image)) * (180 / 25 / Real.pi * 1.5) ∧
    (telemetry decode predict data).throttle = 0.5 :=
  ⟨rfl, rfl⟩

/-- C9: `load_npz` re-seeds the generator with the fixed constant
`SEED = 4242` immediately before shuffling, so its result does not depend on
the ambient generator state: two executions on the same dataset files and
split agree. -/
theorem load_npz_deterministic (gp : ℕ → ℕ → List ℕ) (st₁ st₂ : ℕ)
    (datasets : List (NpzFile × String)) (split : ℚ) :
    load_npz gp st₁ datasets split = load_npz gp st₂ datasets split := rfl

/-- C10: the emitted control command depends only on the `image` field of
the telemetry payload (and the loaded model): two events with the same image
but arbitrary other fields produce identical `steer` messages. -/
theorem telemetry_image_only (decode : String → QImg) (predict : QImg → ℝ)
    (d₁ d₂ : TelemetryData) (himg : d₁.image = d₂.image) :
    telemetry decode predict d₁ = telemetry decode predict d₂ := by
  simp only [telemetry, himg]

/-- Witness for C10: two events sharing an image but differing in every
other field. -/
theorem telemetry_image_only_witness :
    (TelemetryData.mk "0.1" "0.2" "30" "imgdata").image
        = (TelemetryData.mk "7" "8" "9" "imgdata").image ∧
    telemetry (fun _ => []) (fun _ => 0) (TelemetryData.mk "0.1" "0.2" "30" "imgdata")
      = telemetry (fun _ => []) (fun _ => 0) (TelemetryData.mk "7" "8" "9" "imgdata") :=
  ⟨rfl, telemetry_image_only (fun _ => []) (fun _ => 0) _ _ rfl⟩

/-- C5: in `train_model` every sample weight is `1 + ANGLE_WEIGHT * |angle|`
with `ANGLE_WEIGHT = 10`, hence at least `1`, and weights are monotone in the
absolute steering angle. -/
theorem y_weights_spec (y : List ℚ) (i : ℕ) (a b : ℚ) (hab : |a| ≤ |b|) :
    (y_weights y)[i]? = (y[i]?).map (fun v => 1 + ANGLE_WEIGHT * |v|) ∧
    ANGLE_WEIGHT = 10 ∧
    (∀ w ∈ y_weights y, 1 ≤ w) ∧
    (∀ wa ∈ y_weights [a], ∀ wb ∈ y_weights [b], wa ≤ wb) := by
  refine ⟨List.getElem?_map _ y i, rfl, ?_, ?_⟩
  · intro w hw
    simp only [y_weights, List.mem_map] at hw
    obtain ⟨v, -, rfl⟩ := hw
    have h1 : (0 : ℚ) ≤ ANGLE_WEIGHT * |v| :=
      mul_nonneg (by norm_num [ANGLE_WEIGHT]) (abs_nonneg v)
    linarith
  · intro wa hwa wb hwb
    simp only [y_weights, List.map_cons, List.map_nil, List.mem_singleton] at hwa hwb
    subst hwa
    subst hwb
    have h2 : ANGLE_WEIGHT * |a| ≤ ANGLE_WEIGHT * |b| :=
      mul_le_mul_of_nonneg_left hab (by norm_num [ANGLE_WEIGHT])
    linarith

/-- Witness for C5 at the concrete angles `-1` and `2` and list `[1/2]`. -/
theorem y_weights_spec_witness :
    |(-1 : ℚ)| ≤ |(2 : ℚ)| ∧
    ((y_weights [(1/2 : ℚ)])[0]? = ([(1/2 : ℚ)][0]?).map (fun v => 1 + ANGLE_WEIGHT * |v|) ∧
     ANGLE_WEIGHT = 10 ∧
     (∀ w ∈ y_weights [(1/2 : ℚ)], 1 ≤ w) ∧
     (∀ wa ∈ y_weights [(-1 : ℚ)], ∀ wb ∈ y_weights [(2 : ℚ)], wa ≤ wb)) :=
  ⟨by norm_num, y_weights_spec [(1/2 : ℚ)] 0 (-1) 2 (by norm_num)⟩

/-- C7: `save_hyperparameters` writes `ckpt_path + 'hyperparameters.json'`
containing a JSON object with exactly the ten stated keys, each mapping to
the module-level constant of the same name, with `PRE-PROCESSING` an object
with exactly the six stated keys. -/
theorem save_hyperparameters_spec (ckpt_path : String) :
    (save_hyperparameters ckpt_path).1 = ckpt_path ++ "hyperparameters.json" ∧
    (save_hyperparameters ckpt_path).2 = JVal.obj hyperparams ∧
    hyperparams.map Prod.fst
      = ["NB_EPOCHS", "BATCH_SIZE", "LEARNING_RATE", "DECAY", "L2_WEIGHT",
         "BN_EPSILON", "ANGLE_KEY", "ANGLE_WEIGHT", "IMAGE_SIZE", "PRE-PROCESSING"] ∧
    hyperparams.lookup "NB_EPOCHS" = some (JVal.num NB_EPOCHS) ∧
    hyperparams.lookup "BATCH_SIZE" = some (JVal.num (BATCH_SIZE : ℚ)) ∧
    hyperparams.lookup "LEARNING_RATE" = some (JVal.num LEARNING_RATE) ∧
    hyperparams.lookup "DECAY" = some (JVal.num DECAY) ∧
    hyperparams.lookup "L2_WEIGHT" = some (JVal.num L2_WEIGHT) ∧
    hyperparams.lookup "BN_EPSILON" = some (JVal.num BN_EPSILON) ∧
    hyperparams.lookup "ANGLE_KEY" = some (JVal.str ANGLE_KEY) ∧
    hyperparams.lookup "ANGLE_WEIGHT" = some (JVal.num ANGLE_WEIGHT) ∧
    hyperparams.lookup "IMAGE_SIZE"
      = some (JVal.arr [JVal.num (IMG_ROWS : ℚ), JVal.num (IMG_COLS : ℚ)]) ∧
    hyperparams.lookup "PRE-PROCESSING" = some (JVal.obj preprocessing_params) ∧
    preprocessing_params.map Prod.fst
      = ["BRIGHTNESS_DELTA", "CONTRAST_LOWER", "CONTRAST_UPPER",
         "SATURATION_LOWER", "SATURATION_UPPER", "HUE_DELTA"] ∧
    preprocessing_params.lookup "BRIGHTNESS_DELTA" = some (JVal.num BRIGHTNESS_DELTA) ∧
    preprocessing_params.lookup "CONTRAST_LOWER" = some (JVal.num CONTRAST_LOWER) ∧
    preprocessing_params.lookup "CONTRAST_UPPER" = some (JVal.num CONTRAST_UPPER) ∧
    preprocessing_params.lookup "SATURATION_LOWER" = some (JVal.num SATURATION_LOWER) ∧
    preprocessing_params.lookup "SATURATION_UPPER" = some (JVal.num SATURATION_UPPER) ∧
    preprocessing_params.lookup "HUE_DELTA" = some (JVal.num HUE_DELTA) := by
  refine ⟨rfl, rfl, rfl, ?_⟩
  repeat' constructor

/-- C6: for a rectangular image with at least 55 rows and pixel values in
`[0, 255]`, `image_preprocessing` of `drive.py` returns the input divided by
255 with its top 55 rows removed: the shape is `(H - 55) × W × C` and every
output value lies in `[0, 1]`. -/
theorem image_preprocessing_spec (img : QImg) (W C : ℕ)
    (h55 : 55 ≤ img.length)
    (hW : ∀ row ∈ img, row.length = W)
    (hC : ∀ row ∈ img, ∀ pix ∈ row, pix.length = C)
    (hval : ∀ row ∈ img, ∀ pix ∈ row, ∀ v ∈ pix, 0 ≤ v ∧ v ≤ 255) :
    image_preprocessing img
      = (img.drop 55).map (fun row => row.map (fun pix => pix.map (fun v => v / 255))) ∧
    (image_preprocessing img).length = img.length - 55 ∧
    (∀ row ∈ image_preprocessing img, row.length = W) ∧
    (∀ row ∈ image_preprocessing img, ∀ pix ∈ row, pix.length = C) ∧
    (∀ row ∈ image_preprocessing img, ∀ pix ∈ row, ∀ v ∈ pix, 0 ≤ v ∧ v ≤ 1) := by
  have hcomm : image_preprocessing img
      = (img.drop 55).map (fun row => row.map (fun pix => pix.map (fun v => v / 255))) := by
    unfold image_preprocessing
    exact (List.map_drop _ img 55).symm
  have hmem : ∀ row ∈ image_preprocessing img,
      ∃ row0 ∈ img, row = row0.map (fun pix => pix.map (fun v => v / 255)) := by
    intro row hrow
    rw [hcomm] at hrow
    obtain ⟨row0, hrow0, rfl⟩ := List.mem_map.mp hrow
    exact ⟨row0, List.mem_of_mem_drop hrow0, rfl⟩
  refine ⟨hcomm, ?_, ?_, ?_, ?_⟩
  · rw [hcomm, List.length_map, List.length_drop]
  · intro row hrow
    obtain ⟨row0, hrow0, rfl⟩ := hmem row hrow
    rw [List.length_map]
    exact hW row0 hrow0
  · intro row hrow pix hpix
    obtain ⟨row0, hrow0, rfl⟩ := hmem row hrow
    obtain ⟨pix0, hpix0, rfl⟩ := List.mem_map.mp hpix
    rw [List.length_map]
    exact hC row0 hrow0 pix0 hpix0
  · intro row hrow pix hpix v hv
    obtain ⟨row0, hrow0, rfl⟩ := hmem row hrow
    obtain ⟨pix0, hpix0, rfl⟩ := List.mem_map.mp hpix
    obtain ⟨v0, hv0, rfl⟩ := List.mem_map.mp hv
    obtain ⟨hv0l, hv0r⟩ := hval row0 hrow0 pix0 hpix0 v0 hv0
    constructor
    · exact div_nonneg hv0l (by norm_num)
    · rw [div_le_one (by norm_num)]
      exact hv0r

/-- Witness for C6: a 56 × 1 × 1 image of constant value 100. -/
theorem image_preprocessing_spec_witness :
    (55 ≤ (List.replicate 56 [[(100 : ℚ)]] : QImg).length) ∧
    (∀ row ∈ (List.replicate 56 [[(100 : ℚ)]] : QImg), row.length = 1) ∧
    (∀ row ∈ (List.replicate 56 [[(100 : ℚ)]] : QImg), ∀ pix ∈ row, pix.length = 1) ∧
    (∀ row ∈ (List.replicate 56 [[(100 : ℚ)]] : QImg), ∀ pix ∈ row, ∀ v ∈ pix,
      0 ≤ v ∧ v ≤ 255) ∧
    (image_preprocessing (List.replicate 56 [[(100 : ℚ)]])
        = ((List.replicate 56 [[(100 : ℚ)]] : QImg).drop 55).map
            (fun row => row.map (fun pix => pix.map (fun v => v / 255))) ∧
     (image_preprocessing (List.replicate 56 [[(100 : ℚ)]])).length
        = (List.replicate 56 [[(100 : ℚ)]] : QImg).length - 55 ∧
     (∀ row ∈ image_preprocessing (List.replicate 56 [[(100 : ℚ)]]), row.length = 1) ∧
     (∀ row ∈ image_preprocessing (List.replicate 56 [[(100 : ℚ)]]),
        ∀ pix ∈ row, pix.length = 1) ∧
     (∀ row ∈ image_preprocessing (List.replicate 56 [[(100 : ℚ)]]),
        ∀ pix ∈ row, ∀ v ∈ pix, 0 ≤ v ∧ v ≤ 1)) := by
  refine ⟨by simp, ?_, ?_, ?_,
    image_preprocessing_spec (List.replicate 56 [[(100 : ℚ)]]) 1 1
      (by simp) ?_ ?_ ?_⟩ <;>
  · intro row hrow
    rw [List.eq_of_mem_replicate hrow]
    norm_num

/-- C8: `np_shuffle_pair` applies one and the same permutation to both of its
equal-length arguments: there is a single index permutation `p` of
`range x.length` rearranging both arrays, entrywise `new[i] = old[p[i]]`, and
the multiset of `(image, angle)` pairs is preserved. -/
theorem np_shuffle_pair_single_perm {α β : Type} (gp : ℕ → ℕ → List ℕ)
    (hgp : ∀ s n, (gp s n).Perm (List.range n)) (state : ℕ)
    (x : List α) (y : List β) (hlen : x.length = y.length) :
    ∃ p : List ℕ, p.Perm (List.range x.length) ∧
      np_shuffle_pair gp state x y = (applyPerm p x, applyPerm p y) ∧
      (∀ (i j : ℕ), p[i]? = some j →
        (np_shuffle_pair gp state x y).1[i]? = x[j]? ∧
        (np_shuffle_pair gp state x y).2[i]? = y[j]?) ∧
      ((np_shuffle_pair gp state x y).1.zip (np_shuffle_pair gp state x y).2).Perm
        (x.zip y) := by
  refine ⟨gp state x.length, hgp state x.length, ?_, ?_, ?_⟩
  · unfold np_shuffle_pair
    rw [hlen]
  · intro i j hij
    have hvalx : ∀ k ∈ gp state x.length, k < x.length := by
      intro k hk
      exact List.mem_range.mp ((hgp state x.length).mem_iff.mp hk)
    have hvaly : ∀ k ∈ gp state y.length, k < y.length := by
      intro k hk
      exact List.mem_range.mp ((hgp state y.length).mem_iff.mp hk)
    constructor
    · exact applyPerm_getElem? x (gp state x.length) hvalx i j hij
    · exact applyPerm_getElem? y (gp state y.length) hvaly i j (hlen ▸ hij)
  · have hz : (np_shuffle_pair gp state x y).1.zip (np_shuffle_pair gp state x y).2
        = applyPerm (gp state x.length) (x.zip y) := by
      unfold np_shuffle_pair
      rw [hlen, ← applyPerm_zip _ _ _ hlen]
    rw [hz]
    refine applyPerm_perm ?_
    rw [List.length_zip, hlen, min_self, ← hlen]
    exact hgp state x.length

/-- Witness for C8 with the identity generator on `[10, 20]` and `[3, 4]`. -/
theorem np_shuffle_pair_single_perm_witness :
    (∀ s n : ℕ, ((fun (_ : ℕ) (n : ℕ) => List.range n) s n).Perm (List.range n)) ∧
    ([10, 20] : List ℕ).length = ([3, 4] : List ℕ).length ∧
    (∃ p : List ℕ, p.Perm (List.range ([10, 20] : List ℕ).length) ∧
      np_shuffle_pair (fun (_ : ℕ) (n : ℕ) => List.range n) 0 [10, 20] [3, 4]
        = (applyPerm p [10, 20], applyPerm p [3, 4]) ∧
      (∀ (i j : ℕ), p[i]? = some j →
        (np_shuffle_pair (fun (_ : ℕ) (n : ℕ) => List.range n) 0 [10, 20] [3, 4]).1[i]?
            = ([10, 20] : List ℕ)[j]? ∧
        (np_shuffle_pair (fun (_ : ℕ) (n : ℕ) => List.range n) 0 [10, 20] [3, 4]).2[i]?
            = ([3, 4] : List ℕ)[j]?) ∧
      ((np_shuffle_pair (fun (_ : ℕ) (n : ℕ) => List.range n) 0 [10, 20] [3, 4]).1.zip
          (np_shuffle_pair (fun (_ : ℕ) (n : ℕ) => List.range n) 0 [10, 20] [3, 4]).2).Perm
        ([10, 20].zip [3, 4])) :=
  ⟨fun _ _ => List.Perm.refl _, rfl,
   np_shuffle_pair_single_perm (fun (_ : ℕ) (n : ℕ) => List.range n)
     (fun _ _ => List.Perm.refl _) 0 [10, 20] [3, 4] rfl⟩

/-- C3: for every non-empty list of dataset files (each file carrying one
angle value per image), `load_npz` merges the recordings: the merged arrays
are the per-file images and selected angle series appended in list order, the
images are rescaled by `/ 255`, the returned training and validation data
together are a permutation of the merged data, and the total number of
returned samples equals the sum of the per-file sample counts. -/
theorem load_npz_merges (gp : ℕ → ℕ → List ℕ)
    (hgp : ∀ s n, (gp s n).Perm (List.range n))
    (st : ℕ) (datasets : List (NpzFile × String)) (split : ℚ)
    (hne : datasets ≠ [])
    (hwf : ∀ dk ∈ datasets, (dk.1.series dk.2).length = dk.1.images.length) :
    ∃ Xtr ytr Xv yv,
      load_npz gp st datasets split = some (Xtr, ytr, Xv, yv) ∧
      mergeLoop none datasets
        = some ((datasets.map (fun dk => dk.1.images)).flatten,
                (datasets.map (fun dk => dk.1.series dk.2)).flatten) ∧
      (Xtr ++ Xv.getD []).Perm
        (((datasets.map (fun dk => dk.1.images)).flatten).map scaleImg) ∧
      (ytr ++ yv.getD []).Perm ((datasets.map (fun dk => dk.1.series dk.2)).flatten) ∧
      Xtr.length + (Xv.getD []).length
        = (datasets.map (fun dk => dk.1.images.length)).sum ∧
      ytr.length + (yv.getD []).length
        = (datasets.map (fun dk => dk.1.images.length)).sum := by
  obtain ⟨⟨d, k⟩, ds, rfl⟩ : ∃ dk ds, datasets = dk :: ds := by
    cases datasets with
    | nil => exact absurd rfl hne
    | cons dk ds => exact ⟨dk, ds, rfl⟩
  have hm := mergeLoop_none_eq d k ds
  set J := (((d, k) :: ds).map (fun dk => dk.1.images)).flatten with hJdef
  set A := (((d, k) :: ds).map (fun dk => dk.1.series dk.2)).flatten with hAdef
  have hpx : ((np_shuffle_pair gp SEED (J.map scaleImg) A).1).Perm (J.map scaleImg) :=
    applyPerm_perm (hgp SEED (J.map scaleImg).length)
  have hpy : ((np_shuffle_pair gp SEED (J.map scaleImg) A).2).Perm A :=
    applyPerm_perm (hgp SEED A.length)
  have hsumX : (J.map scaleImg).length
      = (((d, k) :: ds).map (fun dk => dk.1.images.length)).sum := by
    rw [List.length_map, hJdef, List.length_flatten, List.map_map]
    rfl
  have hsumA : A.length
      = (((d, k) :: ds).map (fun dk => dk.1.images.length)).sum := by
    rw [hAdef, List.length_flatten, List.map_map]
    have hc : (((d, k) :: ds).map (List.length ∘ fun dk => dk.1.series dk.2))
        = ((d, k) :: ds).map (fun dk => dk.1.images.length) :=
      List.map_congr_left (fun dk hdk => hwf dk hdk)
    rw [hc]
  by_cases hs : split < 1
  · have hload := load_npz_lt gp st _ split _ _ hm hs
    refine ⟨_, _, _, _, hload, hm, ?_, ?_, ?_, ?_⟩
    · rw [Option.getD_some, pySlice_to_append_from]
      exact hpx
    · rw [Option.getD_some, pySlice_to_append_from]
      exact hpy
    · rw [Option.getD_some, ← List.length_append, pySlice_to_append_from,
          hpx.length_eq, hsumX]
    · rw [Option.getD_some, ← List.length_append, pySlice_to_append_from,
          hpy.length_eq, hsumA]
  · have hload := load_npz_ge gp st _ split _ _ hm hs
    refine ⟨_, _, _, _, hload, hm, ?_, ?_, ?_, ?_⟩
    · rw [Option.getD_none, List.append_nil]
      exact hpx
    · rw [Option.getD_none, List.append_nil]
      exact hpy
    · rw [Option.getD_none, List.length_nil, Nat.add_zero, hpx.length_eq, hsumX]
    · rw [Option.getD_none, List.length_nil, Nat.add_zero, hpy.length_eq, hsumA]

/-- Witness for C3: one dataset file with a single image and angle. -/
theorem load_npz_merges_witness :
    (∀ s n : ℕ, ((fun (_ : ℕ) (n : ℕ) => List.range n) s n).Perm (List.range n)) ∧
    ([(NpzFile.mk [[[[(0 : ℚ)]]]] (fun (_ : String) => [(1 : ℚ)]), "a")] ≠ []) ∧
    (∀ dk ∈ [(NpzFile.mk [[[[(0 : ℚ)]]]] (fun (_ : String) => [(1 : ℚ)]), "a")],
      (dk.1.series dk.2).length = dk.1.images.length) ∧
    (∃ Xtr ytr Xv yv,
      load_npz (fun (_ : ℕ) (n : ℕ) => List.range n) 0
          [(NpzFile.mk [[[[(0 : ℚ)]]]] (fun (_ : String) => [(1 : ℚ)]), "a")] (1/2)
        = some (Xtr, ytr, Xv, yv) ∧
      mergeLoop none [(NpzFile.mk [[[[(0 : ℚ)]]]] (fun (_ : String) => [(1 : ℚ)]), "a")]
        = some (([(NpzFile.mk [[[[(0 : ℚ)]]]] (fun (_ : String) => [(1 : ℚ)]), "a")].map
                    (fun dk => dk.1.images)).flatten,
                ([(NpzFile.mk [[[[(0 : ℚ)]]]] (fun (_ : String) => [(1 : ℚ)]), "a")].map
                    (fun dk => dk.1.series dk.2)).flatten) ∧
      (Xtr ++ Xv.getD []).Perm
        ((([(NpzFile.mk [[[[(0 : ℚ)]]]] (fun (_ : String) => [(1 : ℚ)]), "a")].map
            (fun dk => dk.1.images)).flatten).map scaleImg) ∧
      (ytr ++ yv.getD []).Perm
        (([(NpzFile.mk [[[[(0 : ℚ)]]]] (fun (_ : String) => [(1 : ℚ)]), "a")].map
            (fun dk => dk.1.series dk.2)).flatten) ∧
      Xtr.length + (Xv.getD []).length
        = ([(NpzFile.mk [[[[(0 : ℚ)]]]] (fun (_ : String) => [(1 : ℚ)]), "a")].map
            (fun dk => dk.1.images.length)).sum ∧
      ytr.length + (yv.getD []).length
        = ([(NpzFile.mk [[[[(0 : ℚ)]]]] (fun (_ : String) => [(1 : ℚ)]), "a")].map
            (fun dk => dk.1.images.length)).sum) :=
  ⟨fun _ _ => List.Perm.refl _, by simp,
   by
     intro dk hdk
     rw [List.mem_singleton] at hdk
     subst hdk
     rfl,
   load_npz_merges (fun (_ : ℕ) (n : ℕ) => List.range n) (fun _ _ => List.Perm.refl _) 0
     [(NpzFile.mk [[[[(0 : ℚ)]]]] (fun (_ : String) => [(1 : ℚ)]), "a")] (1/2)
     (by simp)
     (by
       intro dk hdk
       rw [List.mem_singleton] at hdk
       subst hdk
       rfl)⟩

/-- C4 (counterexample): the split claim fails for negative `split` values,
which the claim quantifies over (`every split value strictly less than
1.0`).  On a 2-sample dataset with `split = -1/2`, `int(2 * -0.5) = -1` and
Python's negative slicing make the code return the first sample as training
data, while the claim prescribes the first `⌊2 * (-1/2)⌋ = -1` (that is,
zero) samples.  The first conjunct identifies the shuffled data via the
`split = 1.0` run. -/
theorem load_npz_split_counterexample :
    load_npz (fun (_ : ℕ) (n : ℕ) => List.range n) 0
        [(NpzFile.mk [[[[(0 : ℚ)]]], [[[(255 : ℚ)]]]] (fun (_ : String) => [0, 1]), "a")] 1
      = some ([[[[(0 : ℚ)]]], [[[(1 : ℚ)]]]], [0, 1], none, none) ∧
    load_npz (fun (_ : ℕ) (n : ℕ) => List.range n) 0
        [(NpzFile.mk [[[[(0 : ℚ)]]], [[[(255 : ℚ)]]]] (fun (_ : String) => [0, 1]), "a")] (-1/2)
      ≠ some (spec_split [[[[(0 : ℚ)]]], [[[(1 : ℚ)]]]] [0, 1] (-1/2)) := by
  have hsh : np_shuffle_pair (fun (_ : ℕ) (n : ℕ) => List.range n) SEED
      (([[[[(0 : ℚ)]]], [[[(255 : ℚ)]]]] : List QImg).map scaleImg) ([0, 1] : List ℚ)
      = ([[[[(0 : ℚ)]]], [[[(1 : ℚ)]]]], [0, 1]) := by
    norm_num [np_shuffle_pair, applyPerm, scaleImg, List.range_succ,
      List.filterMap_cons, List.getElem?_cons_zero, List.getElem?_cons_succ]
  constructor
  · rw [load_npz_ge (fun (_ : ℕ) (n : ℕ) => List.range n) 0
        [(NpzFile.mk [[[[(0 : ℚ)]]], [[[(255 : ℚ)]]]] (fun (_ : String) => [0, 1]), "a")] 1
        [[[[(0 : ℚ)]]], [[[(255 : ℚ)]]]] [0, 1] rfl (lt_irrefl 1), hsh]
  · intro hc
    rw [load_npz_lt (fun (_ : ℕ) (n : ℕ) => List.range n) 0
        [(NpzFile.mk [[[[(0 : ℚ)]]], [[[(255 : ℚ)]]]] (fun (_ : String) => [0, 1]), "a")] (-1/2)
        [[[[(0 : ℚ)]]], [[[(255 : ℚ)]]]] [0, 1] rfl (by norm_num),
        hsh] at hc
    have hpy : pyInt (((([[[[(0 : ℚ)]]], [[[(1 : ℚ)]]]] : List QImg).length : ℚ)) * (-1/2))
        = -1 := by
      have h2 : ((([[[[(0 : ℚ)]]], [[[(1 : ℚ)]]]] : List QImg).length : ℚ)) * (-1/2)
          = -1 := by norm_num
      rw [h2, pyInt, if_neg (by norm_num : ¬ ((0 : ℚ) ≤ -1))]
      rw [show ((-1 : ℚ)) = ((-1 : ℤ) : ℚ) by norm_num]
      exact Int.ceil_intCast _
    rw [hpy] at hc
    have hk : (⌊((([[[[(0 : ℚ)]]], [[[(1 : ℚ)]]]] : List QImg).length : ℚ)) * (-1/2)⌋ : ℤ)
        = -1 := by norm_num
    rw [spec_split, if_pos (by norm_num : (-1/2 : ℚ) < 1), hk] at hc
    norm_num [pySliceTo, pySliceFrom, show ((-1 : ℤ)).toNat = 0 from rfl] at hc

/-- C4 (amended): for every non-negative `split`, `load_npz` returns exactly
what the split specification prescribes: for `0 ≤ split < 1.0` the training
set is the first `⌊N * split⌋` samples of the shuffled data and the
validation set the remaining ones (`N` the total sample count, on which
`int(N * split) = ⌊N * split⌋` since `N * split ≥ 0`), and for `split = 1.0`
all `N` samples are training data with `none` for both validation arrays. -/
theorem load_npz_split_spec (gp : ℕ → ℕ → List ℕ) (st : ℕ)
    (datasets : List (NpzFile × String)) (split : ℚ)
    (images0 : List QImg) (angle0 : List ℚ)
    (hm : mergeLoop none datasets = some (images0, angle0)) (h0 : 0 ≤ split) :
    load_npz gp st datasets split
      = some (spec_split (np_shuffle_pair gp SEED (images0.map scaleImg) angle0).1
                (np_shuffle_pair gp SEED (images0.map scaleImg) angle0).2 split) := by
  by_cases hs : split < 1
  · rw [load_npz_lt gp st datasets split images0 angle0 hm hs]
    have hq : (0 : ℚ)
        ≤ ((np_shuffle_pair gp SEED (images0.map scaleImg) angle0).1.length : ℚ) * split :=
      mul_nonneg (Nat.cast_nonneg _) h0
    have hflo : (0 : ℤ)
        ≤ ⌊((np_shuffle_pair gp SEED (images0.map scaleImg) angle0).1.length : ℚ) * split⌋ :=
      Int.floor_nonneg.mpr hq
    simp only [spec_split, if_pos hs, pyInt, if_pos hq, pySliceTo, pySliceFrom,
      if_pos hflo]
  · rw [load_npz_ge gp st datasets split images0 angle0 hm hs]
    simp only [spec_split, if_neg hs]

/-- Witness for C4 on a 2-sample dataset with `split = 1/2`. -/
theorem load_npz_split_spec_witness :
    (mergeLoop none
        [(NpzFile.mk [[[[(0 : ℚ)]]], [[[(255 : ℚ)]]]] (fun (_ : String) => [0, 1]), "a")]
      = some ([[[[(0 : ℚ)]]], [[[(255 : ℚ)]]]], [0, 1])) ∧
    ((0 : ℚ) ≤ 1/2) ∧
    load_npz (fun (_ : ℕ) (n : ℕ) => List.range n) 0
        [(NpzFile.mk [[[[(0 : ℚ)]]], [[[(255 : ℚ)]]]] (fun (_ : String) => [0, 1]), "a")] (1/2)
      = some (spec_split
          (np_shuffle_pair (fun (_ : ℕ) (n : ℕ) => List.range n) SEED
            (([[[[(0 : ℚ)]]], [[[(255 : ℚ)]]]] : List QImg).map scaleImg) [0, 1]).1
          (np_shuffle_pair (fun (_ : ℕ) (n : ℕ) => List.range n) SEED
            (([[[[(0 : ℚ)]]], [[[(255 : ℚ)]]]] : List QImg).map scaleImg) [0, 1]).2
          (1/2)) :=
  ⟨rfl, by norm_num,
   load_npz_split_spec (fun (_ : ℕ) (n : ℕ) => List.range n) 0
     [(NpzFile.mk [[[[(0 : ℚ)]]], [[[(255 : ℚ)]]]] (fun (_ : String) => [0, 1]), "a")] (1/2)
     [[[[(0 : ℚ)]]], [[[(255 : ℚ)]]]] [0, 1] rfl (by norm_num)⟩
